import Mathlib

/-!
Shallow embedding of the Call-pro signaling server (src/unnamed/part_000):
room registry, session coordinator event handlers, relay, offline messages
and call accounting, together with proofs of the specified properties.

Timestamps are modelled as natural numbers (milliseconds since epoch);
`new Date().toISOString()` / `new Date(s)` round-trips are the identity on
this model, and the JS millisecond subtraction divided by 1000 becomes an
exact rational.  JS objects keyed by room code are modelled as association
lists in insertion order (matching `for ... in` enumeration order).
-/

namespace CallPro

/-- An offline message: `{from: socket.id, message, timestamp}`. -/
structure Msg where
  sender : String
  message : String
  timestamp : Nat
deriving Repr, DecidableEq

/-- A registered room: `{createdAt, participants, creator, connectedAt?}`. -/
structure Room where
  createdAt : Nat
  participants : List String
  creator : String
  connectedAt : Option Nat
deriving Repr, DecidableEq

/-- A finalized call record pushed by `finalizeCallRecord`. -/
structure CallRecord where
  room : String
  startTime : Nat
  endTime : Nat
  duration : ℚ
  participants : List String
deriving Repr, DecidableEq

/-- The in-memory database `db` (the persisted mirror is out of scope). -/
structure DB where
  callRecords : List CallRecord
  offlineMessages : List (String × List Msg)
  rooms : List (String × Room)
  totalCalls : Nat
deriving Repr, DecidableEq

/-- The freshly initialized database. -/
def emptyDB : DB := ⟨[], [], [], 0⟩

/-- JS object property lookup `m[k]` on an insertion-ordered association list. -/
def lookupA (k : String) : List (String × α) → Option α
  | [] => none
  | (k1, v) :: rest => if k1 = k then some v else lookupA k rest

/-- JS object property assignment `m[k] = v`: overwrite in place or append. -/
def setA (k : String) (v : α) : List (String × α) → List (String × α)
  | [] => [(k, v)]
  | (k1, v1) :: rest => if k1 = k then (k, v) :: rest else (k1, v1) :: setA k v rest

/-- JS `delete m[k]` (removes the first binding of `k`). -/
def eraseA (k : String) : List (String × α) → List (String × α)
  | [] => []
  | (k1, v1) :: rest => if k1 = k then rest else (k1, v1) :: eraseA k rest

/-- The offline-message queue of a room (`db.offlineMessages[room]` or `[]`). -/
def msgsOf (db : DB) (room : String) : List Msg :=
  (lookupA room db.offlineMessages).getD []

/-- The three relayed negotiation payload kinds. -/
inductive RelayKind where
  | offer
  | answer
  | ice
deriving Repr, DecidableEq

/-- Payload of a relay request: `{room, offer|answer|candidate}`; an absent or
falsy payload field is modelled as the empty string. -/
structure RelayData where
  room : String
  payload : String
deriving Repr, DecidableEq

/-- The `Invalid ... data` message thrown when a required field is missing. -/
def invalidDataMsg : RelayKind → String
  | .offer => "Invalid offer data"
  | .answer => "Invalid answer data"
  | .ice => "Invalid ICE candidate data"

/-- Events pushed to clients over the transport. -/
inductive EventMsg where
  | pendingMessages (msgs : List Msg)
  | joined (room : String)
  | peerJoined
  | relayEv (kind : RelayKind) (data : RelayData)
  | offlineMessage (sender message : String)
  | leaveEv
  | errorEv (msg : String)
deriving Repr, DecidableEq

/-- An emission: to the sender itself (`socket.emit`), to the whole room group
(`io.to(room)`), to the room group minus the sender (`socket.to(room)`), or to
one client id (`io.to(socketId)`). -/
inductive Emit where
  | toSelf (sock : String) (ev : EventMsg)
  | toRoom (room : String) (ev : EventMsg)
  | toRoomExcept (room : String) (sender : String) (ev : EventMsg)
  | toClient (target : String) (ev : EventMsg)
deriving Repr, DecidableEq

/-- The structured acknowledgment `{success, room?|error}`. -/
inductive Ack where
  | ok (room : Option String)
  | err (msg : String)
deriving Repr, DecidableEq

/-- Handler for `socket.on('create')`: validate the code, reject duplicates, register the
room with the creator as sole participant. -/
def handleCreate (db : DB) (sock room : String) (now : Nat) :
    DB × Ack × List Emit :=
  if room.length < 4 then
    (db, .err "Invalid room code", [])
  else if (lookupA room db.rooms).isSome then
    (db, .err "Room already exists", [])
  else
    ({ db with rooms := setA room ⟨now, [sock], sock, none⟩ db.rooms },
     .ok (some room), [])

/-- Handler for `socket.on('join')`: admission control, offline-message delivery, `joined`
broadcast, and the `peer_joined` notification on the 1 to 2 transition. -/
def handleJoin (db : DB) (sock room : String) : DB × Ack × List Emit :=
  if room = "" then
    (db, .err "Invalid room code", [.toSelf sock (.errorEv "Invalid room code")])
  else
    match lookupA room db.rooms with
    | none =>
        (db, .err "Room does not exist",
         [.toSelf sock (.errorEv "Room does not exist")])
    | some r =>
        if r.participants.length ≥ 2 then
          (db, .err "Room is full", [.toSelf sock (.errorEv "Room is full")])
        else
          let r1 : Room := { r with participants := r.participants ++ [sock] }
          let db1 : DB := { db with rooms := setA room r1 db.rooms }
          let pending := msgsOf db1 room
          let db2 : DB :=
            if pending ≠ [] then
              { db1 with offlineMessages := eraseA room db1.offlineMessages }
            else db1
          let e1 : List Emit :=
            if pending ≠ [] then [.toSelf sock (.pendingMessages pending)] else []
          let db3 : DB :=
            if r1.participants.length = 2 then
              { db2 with totalCalls := db2.totalCalls + 1 }
            else db2
          let e3 : List Emit :=
            if r1.participants.length = 2 then
              [.toClient (r1.participants.headD "") .peerJoined]
            else []
          (db3, .ok (some room), e1 ++ [.toRoom room (.joined room)] ++ e3)

/-- Handler for `socket.on('offer'/'answer'/'ice')`: structural validation, then the
participant authorization check, then verbatim forwarding to the rest of the
room group. -/
def handleRelay (db : DB) (sock : String) (kind : RelayKind)
    (data : RelayData) : DB × Ack × List Emit :=
  if data.room = "" ∨ data.payload = "" then
    (db, .err (invalidDataMsg kind), [])
  else
    match lookupA data.room db.rooms with
    | none => (db, .err "Not a room participant", [])
    | some r =>
        if sock ∈ r.participants then
          (db, .ok none, [.toRoomExcept data.room sock (.relayEv kind data)])
        else
          (db, .err "Not a room participant", [])

/-- Handler for `socket.on('leave_message')`: append to the room's offline queue and echo
to the room group. -/
def handleLeaveMessage (db : DB) (sock room message : String) (now : Nat) :
    DB × Ack × List Emit :=
  if room = "" ∨ message = "" then
    (db, .err "Invalid message data", [])
  else if (lookupA room db.rooms).isNone then
    (db, .err "Room does not exist", [])
  else
    ({ db with offlineMessages :=
        (setA room (msgsOf db room ++ [⟨sock, message, now⟩])
          db.offlineMessages) },
     .ok none, [.toRoomExcept room sock (.offlineMessage sock message)])

/-- Handler for `socket.on('call_connected')`: stamp `connectedAt` with the current time. -/
def handleCallConnected (db : DB) (room : String) (now : Nat) :
    DB × Ack × List Emit :=
  match lookupA room db.rooms with
  | some r =>
      ({ db with rooms := setA room { r with connectedAt := some now } db.rooms },
       .ok none, [])
  | none => (db, .err "Room not found", [])

/-- Helper `finalizeCallRecord(room)`: push a call record snapshotting the room's
current participants and delete the room, when `connectedAt` is set. -/
def finalizeCallRecord (db : DB) (room : String) (now : Nat) : DB :=
  match lookupA room db.rooms with
  | some r =>
      match r.connectedAt with
      | some ct =>
          { db with
            callRecords :=
              (db.callRecords ++
                [⟨room, ct, now, ((now : ℚ) - (ct : ℚ)) / 1000, r.participants⟩]),
            rooms := eraseA room db.rooms }
      | none => db
  | none => db

/-- Helper `cleanupRoom(room, socketId)`: splice the socket out of the room's
participants if present; finalize when the room becomes empty and connected. -/
def cleanupRoom (db : DB) (room sock : String) (now : Nat) : DB :=
  match lookupA room db.rooms with
  | none => db
  | some r =>
      if sock ∈ r.participants then
        let r1 : Room := { r with participants := r.participants.erase sock }
        let db1 : DB := { db with rooms := setA room r1 db.rooms }
        if r1.participants.length = 0 ∧ r1.connectedAt.isSome then
          finalizeCallRecord db1 room now
        else db1
      else db

/-- Handler for `socket.on('leave')`: leave the transport group, clean up, notify the rest
of the room group; the acknowledgment is always a success. -/
def handleLeave (db : DB) (sock room : String) (now : Nat) :
    DB × Ack × List Emit :=
  (cleanupRoom db room sock now, .ok none, [.toRoomExcept room sock .leaveEv])

/-- One iteration of the `for (const room in db.rooms)` loop body of
`cleanupSocketRooms`, at a given room key. -/
def cleanupStep (sock : String) (now : Nat) (db : DB) (room : String) :
    DB × List Emit :=
  match lookupA room db.rooms with
  | none => (db, [])
  | some r =>
      if sock ∈ r.participants then
        let r1 : Room := { r with participants := r.participants.erase sock }
        let db1 : DB := { db with rooms := setA room r1 db.rooms }
        if r1.participants.length = 0 ∧ r1.connectedAt.isSome then
          (finalizeCallRecord db1 room now, [.toRoom room .leaveEv])
        else
          (db1, [.toRoom room .leaveEv])
      else (db, [])

/-- The loop of `cleanupSocketRooms` over a list of room keys. -/
def cleanupList (sock : String) (now : Nat) (db : DB) :
    List String → DB × List Emit
  | [] => (db, [])
  | room :: rest =>
      let p := cleanupStep sock now db room
      let q := cleanupList sock now p.1 rest
      (q.1, p.2 ++ q.2)

/-- Helper `cleanupSocketRooms(socketId)`, run on `disconnect`: sweep every room the
registry knows about. -/
def cleanupSocketRooms (db : DB) (sock : String) (now : Nat) :
    DB × List Emit :=
  cleanupList sock now db (db.rooms.map Prod.fst)

/-- A client-originated operation against the registry. -/
inductive Op where
  | create (sock room : String) (now : Nat)
  | join (sock room : String)
  | relay (sock : String) (kind : RelayKind) (data : RelayData)
  | leaveMessage (sock room message : String) (now : Nat)
  | callConnected (room : String) (now : Nat)
  | leave (sock room : String) (now : Nat)
  | disconnect (sock : String) (now : Nat)
deriving Repr, DecidableEq

/-- The state transition of one operation (acknowledgment discarded). -/
def applyOp (db : DB) : Op → DB
  | .create sock room now => (handleCreate db sock room now).1
  | .join sock room => (handleJoin db sock room).1
  | .relay sock kind data => (handleRelay db sock kind data).1
  | .leaveMessage sock room message now =>
      (handleLeaveMessage db sock room message now).1
  | .callConnected room now => (handleCallConnected db room now).1
  | .leave sock room now => (handleLeave db sock room now).1
  | .disconnect sock now => (cleanupSocketRooms db sock now).1

/-- The emissions of one operation. -/
def emitsOf (db : DB) : Op → List Emit
  | .create sock room now => (handleCreate db sock room now).2.2
  | .join sock room => (handleJoin db sock room).2.2
  | .relay sock kind data => (handleRelay db sock kind data).2.2
  | .leaveMessage sock room message now =>
      (handleLeaveMessage db sock room message now).2.2
  | .callConnected room now => (handleCallConnected db room now).2.2
  | .leave sock room now => (handleLeave db sock room now).2.2
  | .disconnect sock now => (cleanupSocketRooms db sock now).2

/-- Run a sequence of operations from a database. -/
def applyOps (db : DB) (ops : List Op) : DB := ops.foldl applyOp db

/-- Run a sequence of operations, collecting all emissions in order. -/
def runOps (db : DB) : List Op → DB × List Emit
  | [] => (db, [])
  | op :: rest =>
      let e := emitsOf db op
      let q := runOps (applyOp db op) rest
      (q.1, e ++ q.2)

/-- Every room of a registry slice has at most 2 participants. -/
def roomsBound (m : List (String × Room)) : Prop :=
  ∀ p ∈ m, (Prod.snd p).participants.length ≤ 2

/-- The registry invariant: every registered room has at most 2 participants
(the count is a list length, hence never negative). -/
def roomsOK (db : DB) : Prop := roomsBound db.rooms

instance (m : List (String × Room)) : Decidable (roomsBound m) := by
  unfold roomsBound; infer_instance

instance (db : DB) : Decidable (roomsOK db) := by
  unfold roomsOK; infer_instance

/-! ### Association-list lemmas -/

theorem lookupA_mem {m : List (String × α)} {k : String} {v : α}
    (h : lookupA k m = some v) : (k, v) ∈ m := by
  induction m with
  | nil => simp [lookupA] at h
  | cons p rest ih =>
      obtain ⟨k1, v1⟩ := p
      by_cases hk : k1 = k
      · subst hk
        simp [lookupA] at h
        simp [h]
      · simp [lookupA, hk] at h
        exact List.mem_cons_of_mem _ (ih h)

theorem mem_setA {m : List (String × α)} {k : String} {v : α}
    {p : String × α} (h : p ∈ setA k v m) : p = (k, v) ∨ p ∈ m := by
  induction m with
  | nil => simpa [setA] using h
  | cons q rest ih =>
      obtain ⟨k1, v1⟩ := q
      by_cases hk : k1 = k
      · subst hk
        simp [setA] at h
        rcases h with h | h
        · exact Or.inl h
        · exact Or.inr (List.mem_cons_of_mem _ h)
      · simp [setA, hk] at h
        rcases h with h | h
        · exact Or.inr (by simp [h])
        · rcases ih h with h1 | h1
          · exact Or.inl h1
          · exact Or.inr (List.mem_cons_of_mem _ h1)

theorem mem_eraseA {m : List (String × α)} {k : String}
    {p : String × α} (h : p ∈ eraseA k m) : p ∈ m := by
  induction m with
  | nil => simp [eraseA] at h
  | cons q rest ih =>
      obtain ⟨k1, v1⟩ := q
      by_cases hk : k1 = k
      · subst hk
        simp [eraseA] at h
        exact List.mem_cons_of_mem _ h
      · simp [eraseA, hk] at h
        rcases h with h | h
        · simp [h]
        · exact List.mem_cons_of_mem _ (ih h)

theorem lookupA_setA_self (m : List (String × α)) (k : String) (v : α) :
    lookupA k (setA k v m) = some v := by
  induction m with
  | nil => simp [setA, lookupA]
  | cons q rest ih =>
      obtain ⟨k1, v1⟩ := q
      by_cases hk : k1 = k
      · subst hk; simp [setA, lookupA]
      · simp [setA, lookupA, hk, ih]

theorem lookupA_setA_ne (m : List (String × α)) {k k' : String} (v : α)
    (h : k' ≠ k) : lookupA k' (setA k v m) = lookupA k' m := by
  induction m with
  | nil => simp [setA, lookupA, Ne.symm h]
  | cons q rest ih =>
      obtain ⟨k1, v1⟩ := q
      by_cases hk : k1 = k
      · subst hk
        simp [setA, lookupA, Ne.symm h]
      · by_cases hk1 : k1 = k'
        · subst hk1; simp [setA, lookupA, hk]
        · simp [setA, lookupA, hk, hk1, ih]

theorem lookupA_eraseA_ne (m : List (String × α)) {k k' : String}
    (h : k' ≠ k) : lookupA k' (eraseA k m) = lookupA k' m := by
  induction m with
  | nil => simp [eraseA]
  | cons q rest ih =>
      obtain ⟨k1, v1⟩ := q
      by_cases hk : k1 = k
      · subst hk
        simp [eraseA, lookupA, Ne.symm h]
      · by_cases hk1 : k1 = k'
        · subst hk1; simp [eraseA, lookupA, hk]
        · simp [eraseA, lookupA, hk, hk1, ih]

/-- The keys of an association list, in order. -/
def keysOf (m : List (String × α)) : List String := m.map Prod.fst

theorem keysOf_cons (k1 : String) (v1 : α) (rest : List (String × α)) :
    keysOf ((k1, v1) :: rest) = k1 :: keysOf rest := rfl

theorem lookupA_eq_none_of_not_mem_keys {m : List (String × α)} {k : String}
    (h : k ∉ keysOf m) : lookupA k m = none := by
  induction m with
  | nil => simp [lookupA]
  | cons q rest ih =>
      obtain ⟨k1, v1⟩ := q
      rw [keysOf_cons, List.mem_cons] at h
      push_neg at h
      simp [lookupA, Ne.symm h.1, ih h.2]

theorem lookupA_eraseA_self {m : List (String × α)} {k : String}
    (h : (keysOf m).Nodup) : lookupA k (eraseA k m) = none := by
  induction m with
  | nil => simp [eraseA, lookupA]
  | cons q rest ih =>
      obtain ⟨k1, v1⟩ := q
      rw [keysOf_cons, List.nodup_cons] at h
      by_cases hk : k1 = k
      · subst hk
        simpa [eraseA] using lookupA_eq_none_of_not_mem_keys h.1
      · simp [eraseA, lookupA, hk]
        exact ih h.2

/-! ### Handler characterizations -/

theorem handleJoin_success {db : DB} {sock room : String} {r : Room}
    (hne : room ≠ "") (hl : lookupA room db.rooms = some r)
    (hlen : r.participants.length < 2) :
    handleJoin db sock room =
      (⟨db.callRecords,
        if msgsOf db room = [] then db.offlineMessages
          else eraseA room db.offlineMessages,
        setA room { r with participants := r.participants ++ [sock] } db.rooms,
        if r.participants.length + 1 = 2 then db.totalCalls + 1
          else db.totalCalls⟩,
       .ok (some room),
       (if msgsOf db room = [] then []
          else [.toSelf sock (.pendingMessages (msgsOf db room))]) ++
       [.toRoom room (.joined room)] ++
       (if r.participants.length + 1 = 2 then
          [.toClient (r.participants.headD "") .peerJoined] else [])) := by
  have hmsg : msgsOf { db with rooms :=
      (setA room { r with participants := r.participants ++ [sock] }
        db.rooms) } room = msgsOf db room := rfl
  simp only [handleJoin, hne, if_false, hl, if_neg (not_le.mpr hlen)]
  by_cases hp : msgsOf db room = []
  · by_cases h2 : r.participants.length + 1 = 2
    · have h1 : r.participants.length = 1 := by omega
      obtain ⟨a, ha⟩ := List.length_eq_one.mp h1
      simp_all [hmsg, List.length_append, ha]
    · simp_all [hmsg, List.length_append]
  · by_cases h2 : r.participants.length + 1 = 2
    · have : r.participants.length = 1 := by omega
      obtain ⟨a, ha⟩ := List.length_eq_one.mp this
      simp_all [hmsg, List.length_append, ha]
    · simp_all [hmsg, List.length_append]

theorem handleCreate_invalid {db : DB} {sock room : String} {now : Nat}
    (h : room.length < 4) :
    handleCreate db sock room now = (db, .err "Invalid room code", []) := by
  simp [handleCreate, h]

theorem handleCreate_exists {db : DB} {sock room : String} {now : Nat}
    (h4 : ¬ room.length < 4) (h : (lookupA room db.rooms).isSome) :
    handleCreate db sock room now = (db, .err "Room already exists", []) := by
  simp [handleCreate, h4, h]

theorem handleCreate_success {db : DB} {sock room : String} {now : Nat}
    (h4 : ¬ room.length < 4) (h : lookupA room db.rooms = none) :
    handleCreate db sock room now =
      ({ db with rooms := setA room ⟨now, [sock], sock, none⟩ db.rooms },
       .ok (some room), []) := by
  simp [handleCreate, h4, h]

theorem handleJoin_notFound {db : DB} {sock room : String}
    (hne : room ≠ "") (h : lookupA room db.rooms = none) :
    handleJoin db sock room =
      (db, .err "Room does not exist",
       [.toSelf sock (.errorEv "Room does not exist")]) := by
  simp [handleJoin, hne, h]

theorem handleJoin_full {db : DB} {sock room : String} {r : Room}
    (hne : room ≠ "") (h : lookupA room db.rooms = some r)
    (hf : 2 ≤ r.participants.length) :
    handleJoin db sock room =
      (db, .err "Room is full", [.toSelf sock (.errorEv "Room is full")]) := by
  simp [handleJoin, hne, h, hf]

theorem handleRelay_state (db : DB) (sock : String) (kind : RelayKind)
    (data : RelayData) : (handleRelay db sock kind data).1 = db := by
  unfold handleRelay
  split
  · rfl
  · split
    · rfl
    · split <;> rfl

theorem handleLeaveMessage_rooms (db : DB) (sock room message : String)
    (now : Nat) :
    (handleLeaveMessage db sock room message now).1.rooms = db.rooms := by
  unfold handleLeaveMessage
  split
  · rfl
  · split <;> rfl

/-! ### Preservation of the participant bound -/

theorem roomsBound_setA {m : List (String × Room)} {k : String} {r : Room}
    (h : roomsBound m) (hr : r.participants.length ≤ 2) :
    roomsBound (setA k r m) := by
  intro p hp
  rcases mem_setA hp with hp1 | hp1
  · subst hp1; exact hr
  · exact h p hp1

theorem roomsBound_eraseA {m : List (String × Room)} {k : String}
    (h : roomsBound m) : roomsBound (eraseA k m) :=
  fun p hp => h p (mem_eraseA hp)

theorem roomsOK_handleCreate {db : DB} (sock room : String) (now : Nat)
    (h : roomsOK db) : roomsOK (handleCreate db sock room now).1 := by
  unfold handleCreate
  split
  · exact h
  · split
    · exact h
    · exact roomsBound_setA h (by simp)

theorem roomsOK_handleJoin {db : DB} (sock room : String)
    (h : roomsOK db) : roomsOK (handleJoin db sock room).1 := by
  by_cases hne : room = ""
  · simp [handleJoin, hne]; exact h
  · cases hl : lookupA room db.rooms with
    | none => rw [handleJoin_notFound hne hl]; exact h
    | some r =>
        by_cases hf : 2 ≤ r.participants.length
        · rw [handleJoin_full hne hl hf]; exact h
        · rw [handleJoin_success hne hl (not_le.mp hf)]
          refine roomsBound_setA h ?_
          have := h _ (lookupA_mem hl)
          simp only [List.length_append, List.length_singleton]
          omega

theorem roomsOK_finalizeCallRecord {db : DB} (room : String) (now : Nat)
    (h : roomsOK db) : roomsOK (finalizeCallRecord db room now) := by
  unfold finalizeCallRecord
  split
  · split
    · exact roomsBound_eraseA h
    · exact h
  · exact h

theorem roomsOK_cleanupRoom {db : DB} (room sock : String) (now : Nat)
    (h : roomsOK db) : roomsOK (cleanupRoom db room sock now) := by
  unfold cleanupRoom
  split
  · exact h
  · next r hl =>
      split
      · have hsub : roomsOK { db with rooms :=
            (setA room { r with participants := r.participants.erase sock }
              db.rooms) } := by
          refine roomsBound_setA h ?_
          have h2 : r.participants.length ≤ 2 := h _ (lookupA_mem hl)
          have hle := (List.erase_sublist sock r.participants).length_le
          show (r.participants.erase sock).length ≤ 2
          omega
        dsimp only
        split
        · exact roomsOK_finalizeCallRecord _ _ hsub
        · exact hsub
      · exact h

theorem roomsOK_cleanupStep {db : DB} (sock room : String) (now : Nat)
    (h : roomsOK db) : roomsOK (cleanupStep sock now db room).1 := by
  unfold cleanupStep
  split
  · exact h
  · next r hl =>
      split
      · have hsub : roomsOK { db with rooms :=
            (setA room { r with participants := r.participants.erase sock }
              db.rooms) } := by
          refine roomsBound_setA h ?_
          have h2 : r.participants.length ≤ 2 := h _ (lookupA_mem hl)
          have hle := (List.erase_sublist sock r.participants).length_le
          show (r.participants.erase sock).length ≤ 2
          omega
        dsimp only
        split
        · exact roomsOK_finalizeCallRecord _ _ hsub
        · exact hsub
      · exact h

theorem roomsOK_cleanupList {sock : String} {now : Nat} (ks : List String)
    {db : DB} (h : roomsOK db) : roomsOK (cleanupList sock now db ks).1 := by
  induction ks generalizing db with
  | nil => exact h
  | cons room rest ih =>
      exact ih (roomsOK_cleanupStep sock room now h)

theorem roomsOK_handleCallConnected {db : DB} (room : String) (now : Nat)
    (h : roomsOK db) : roomsOK (handleCallConnected db room now).1 := by
  unfold handleCallConnected
  split
  · next r hl =>
      exact roomsBound_setA h (h _ (lookupA_mem hl))
  · exact h

theorem roomsOK_applyOp {db : DB} (op : Op) (h : roomsOK db) :
    roomsOK (applyOp db op) := by
  cases op with
  | create sock room now => exact roomsOK_handleCreate sock room now h
  | join sock room => exact roomsOK_handleJoin sock room h
  | relay sock kind data =>
      simp only [applyOp]
      rw [handleRelay_state]
      exact h
  | leaveMessage sock room message now =>
      simp only [applyOp]
      unfold roomsOK
      rw [handleLeaveMessage_rooms]
      exact h
  | callConnected room now => exact roomsOK_handleCallConnected room now h
  | leave sock room now => exact roomsOK_cleanupRoom room sock now h
  | disconnect sock now => exact roomsOK_cleanupList _ h

/-! ### Emission observers -/

/-- Whether an acknowledgment reports a failure. -/
def Ack.isErr : Ack → Bool
  | .err _ => true
  | .ok _ => false

/-- Whether an emission goes to a room's transport group (a broadcast, as
opposed to a message addressed to a single client). -/
def isGroupBroadcast : Emit → Bool
  | .toRoom _ _ => true
  | .toRoomExcept _ _ _ => true
  | .toSelf _ _ => false
  | .toClient _ _ => false

/-- The offline messages delivered in a list of emissions: concatenation of
all `pending_messages` payloads, in order. -/
def deliveredMsgs : List Emit → List Msg
  | [] => []
  | .toSelf _ (.pendingMessages ms) :: rest => ms ++ deliveredMsgs rest
  | _ :: rest => deliveredMsgs rest

/-- Whether an emission is a `peer_joined` notification. -/
def isPeerJoined : Emit → Bool
  | .toSelf _ .peerJoined => true
  | .toRoom _ .peerJoined => true
  | .toRoomExcept _ _ .peerJoined => true
  | .toClient _ .peerJoined => true
  | _ => false

/-- Whether an operation is a join request. -/
def Op.isJoin : Op → Bool
  | .join _ _ => true
  | _ => false

/-! ### Claim theorems -/

/-- C2: a create request fails with `Invalid room code` and leaves the
registry unchanged when the code is shorter than 4 characters (in particular
when it is empty); it fails whenever the code is already registered, with
`Room already exists` when the code also passes validation, again leaving the
registry unchanged; on success it acknowledges with the room code and
registers a room whose participants list is exactly the creator; and a second
create on the just-created code always fails with `Room already exists`,
changing nothing. -/
theorem spec_c2_createRoom (db : DB) (sock room : String) (now : Nat) :
    (room.length < 4 →
      handleCreate db sock room now = (db, .err "Invalid room code", [])) ∧
    ((lookupA room db.rooms).isSome →
      (handleCreate db sock room now).1 = db ∧
      ((handleCreate db sock room now).2.1).isErr = true) ∧
    ((lookupA room db.rooms).isSome → ¬ room.length < 4 →
      (handleCreate db sock room now).2.1 = .err "Room already exists") ∧
    (¬ room.length < 4 → lookupA room db.rooms = none →
      (handleCreate db sock room now).2.1 = .ok (some room) ∧
      lookupA room (handleCreate db sock room now).1.rooms =
        some ⟨now, [sock], sock, none⟩ ∧
      ∀ sock2 now2,
        handleCreate (handleCreate db sock room now).1 sock2 room now2 =
          ((handleCreate db sock room now).1,
           .err "Room already exists", [])) := by
  refine ⟨fun h => handleCreate_invalid h, fun h => ?_, fun h h4 => ?_,
    fun h4 h => ?_⟩
  · by_cases h4 : room.length < 4
    · simp [handleCreate_invalid h4, Ack.isErr]
    · simp [handleCreate_exists h4 h, Ack.isErr]
  · simp [handleCreate_exists h4 h]
  · rw [handleCreate_success h4 h]
    refine ⟨rfl, lookupA_setA_self _ _ _, fun sock2 now2 => ?_⟩
    exact handleCreate_exists h4 (by simp [lookupA_setA_self])

/-- C2 witness: creating `"ABCD"` on the empty registry succeeds with
participants `["A"]`, and a second create on it fails. -/
theorem spec_c2_createRoom_witness :
    (handleCreate emptyDB "A" "ABCD" 0).2.1 = Ack.ok (some "ABCD") ∧
    lookupA "ABCD" (handleCreate emptyDB "A" "ABCD" 0).1.rooms =
      some ⟨0, ["A"], "A", none⟩ ∧
    handleCreate (handleCreate emptyDB "A" "ABCD" 0).1 "B" "ABCD" 1 =
      ((handleCreate emptyDB "A" "ABCD" 0).1,
       .err "Room already exists", []) := by
  have h := (spec_c2_createRoom emptyDB "A" "ABCD" 0).2.2.2
    (by decide) (by decide)
  exact ⟨h.1, h.2.1, h.2.2 "B" 1⟩

/-- C4: a relay request (offer, answer or ICE candidate) with both fields
present fails with `Not a room participant` and forwards nothing when the
named room is unregistered or the sender is not among its participants; when
the sender is a participant the payload is forwarded verbatim to the rest of
the room's transport group. -/
theorem spec_c4_relay (db : DB) (sock : String) (kind : RelayKind)
    (data : RelayData) (r : Room) (hroom : data.room ≠ "")
    (hpay : data.payload ≠ "") :
    (lookupA data.room db.rooms = none →
      handleRelay db sock kind data =
        (db, .err "Not a room participant", [])) ∧
    (lookupA data.room db.rooms = some r → sock ∉ r.participants →
      handleRelay db sock kind data =
        (db, .err "Not a room participant", [])) ∧
    (lookupA data.room db.rooms = some r → sock ∈ r.participants →
      handleRelay db sock kind data =
        (db, .ok none, [.toRoomExcept data.room sock (.relayEv kind data)])) := by
  refine ⟨fun h => ?_, fun h hn => ?_, fun h hm => ?_⟩
  · simp [handleRelay, hroom, hpay, h]
  · simp [handleRelay, hroom, hpay, h, hn]
  · simp [handleRelay, hroom, hpay, h, hm]

/-- C4 witness: in a registry holding room `"ABCD"` with participants
`["A", "B"]`, a relay from the stranger `"C"` fails with no forwarding, and a
relay from `"A"` forwards the payload verbatim. -/
theorem spec_c4_relay_witness :
    (handleRelay ⟨[], [], [("ABCD", ⟨0, ["A", "B"], "A", none⟩)], 0⟩ "C"
        .offer ⟨"ABCD", "sdp"⟩ =
      (⟨[], [], [("ABCD", ⟨0, ["A", "B"], "A", none⟩)], 0⟩,
       .err "Not a room participant", [])) ∧
    (handleRelay ⟨[], [], [("ABCD", ⟨0, ["A", "B"], "A", none⟩)], 0⟩ "A"
        .offer ⟨"ABCD", "sdp"⟩ =
      (⟨[], [], [("ABCD", ⟨0, ["A", "B"], "A", none⟩)], 0⟩,
       .ok none, [.toRoomExcept "ABCD" "A" (.relayEv .offer ⟨"ABCD", "sdp"⟩)])) := by
  refine ⟨?_, ?_⟩
  · exact (spec_c4_relay _ "C" .offer ⟨"ABCD", "sdp"⟩ ⟨0, ["A", "B"], "A", none⟩
      (by decide) (by decide)).2.1 (by decide) (by decide)
  · exact (spec_c4_relay _ "A" .offer ⟨"ABCD", "sdp"⟩ ⟨0, ["A", "B"], "A", none⟩
      (by decide) (by decide)).2.2 (by decide) (by decide)

/-- C9: a call_connected request on an unregistered code fails with
`Room not found` and changes nothing; on a registered room it succeeds and
stamps `connectedAt` with the current time, and a re-invocation overwrites
the previous timestamp (last call wins). -/
theorem spec_c9_markConnected (db : DB) (room : String) (now now2 : Nat)
    (r : Room) :
    (lookupA room db.rooms = none →
      handleCallConnected db room now = (db, .err "Room not found", [])) ∧
    (lookupA room db.rooms = some r →
      (handleCallConnected db room now).2.1 = .ok none ∧
      lookupA room (handleCallConnected db room now).1.rooms =
        some { r with connectedAt := some now } ∧
      lookupA room
          ((handleCallConnected (handleCallConnected db room now).1
            room now2).1).rooms =
        some { r with connectedAt := some now2 }) := by
  constructor
  · intro h
    simp [handleCallConnected, h]
  · intro h
    have e1 : handleCallConnected db room now =
        ({ db with rooms :=
            (setA room { r with connectedAt := some now } db.rooms) },
         .ok none, []) := by
      simp [handleCallConnected, h]
    have h2 : lookupA room (handleCallConnected db room now).1.rooms =
        some { r with connectedAt := some now } := by
      rw [e1]; exact lookupA_setA_self _ _ _
    have e2 : ∀ dbX : DB, lookupA room dbX.rooms =
        some { r with connectedAt := some now } →
        handleCallConnected dbX room now2 =
        ({ dbX with rooms :=
            (setA room { r with connectedAt := some now2 } dbX.rooms) },
         .ok none, []) := by
      intro dbX hX
      simp [handleCallConnected, hX]
    refine ⟨by rw [e1], h2, ?_⟩
    rw [e2 _ h2]
    exact lookupA_setA_self _ _ _

/-- C9 witness: marking `"ABCD"` connected at time 5 then again at time 9
leaves `connectedAt = 9`, and the call on the empty registry fails. -/
theorem spec_c9_markConnected_witness :
    (handleCallConnected emptyDB "ABCD" 5 =
      (emptyDB, .err "Room not found", [])) ∧
    lookupA "ABCD"
        ((handleCallConnected
          (handleCallConnected ⟨[], [], [("ABCD", ⟨0, ["A"], "A", none⟩)], 0⟩
            "ABCD" 5).1 "ABCD" 9).1).rooms =
      some ⟨0, ["A"], "A", some 9⟩ := by
  constructor
  · exact (spec_c9_markConnected emptyDB "ABCD" 5 9
      ⟨0, ["A"], "A", none⟩).1 (by decide)
  · exact ((spec_c9_markConnected ⟨[], [], [("ABCD", ⟨0, ["A"], "A", none⟩)], 0⟩
      "ABCD" 5 9 ⟨0, ["A"], "A", none⟩).2 (by decide)).2.2

/-- C10: an explicit leave request naming a room in which the requester is
not a participant, or naming an unregistered room, still acknowledges with a
success, leaves the database unchanged, and still emits a `leave`
notification to the room's transport group. -/
theorem spec_c10_leave_nonparticipant (db : DB) (sock room : String)
    (now : Nat)
    (h : lookupA room db.rooms = none ∨
      ∃ r, lookupA room db.rooms = some r ∧ sock ∉ r.participants) :
    handleLeave db sock room now =
      (db, .ok none, [.toRoomExcept room sock .leaveEv]) := by
  unfold handleLeave cleanupRoom
  rcases h with h | ⟨r, h, hn⟩
  · rw [h]
  · rw [h]
    simp [hn]

/-- C10 witness: `"B"` leaving room `"ABCD"` it never joined acknowledges
success, changes nothing and still emits the `leave` notification. -/
theorem spec_c10_leave_nonparticipant_witness :
    handleLeave ⟨[], [], [("ABCD", ⟨0, ["A"], "A", none⟩)], 0⟩ "B" "ABCD" 7 =
      (⟨[], [], [("ABCD", ⟨0, ["A"], "A", none⟩)], 0⟩,
       .ok none, [.toRoomExcept "ABCD" "B" .leaveEv]) :=
  spec_c10_leave_nonparticipant _ "B" "ABCD" 7
    (Or.inr ⟨⟨0, ["A"], "A", none⟩, by decide, by decide⟩)

theorem roomsOK_emptyDB : roomsOK emptyDB := by
  intro p hp
  cases hp

theorem roomsOK_applyOps {db : DB} (ops : List Op) (h : roomsOK db) :
    roomsOK (applyOps db ops) := by
  induction ops generalizing db with
  | nil => exact h
  | cons op rest ih => exact ih (roomsOK_applyOp op h)

/-- C1: every operation (create, join, relay, leave_message, call_connected,
explicit leave, disconnect cleanup) preserves the invariant that every
registered room has between 0 and 2 participants, and every operation
sequence run from the initial empty registry keeps it. -/
theorem spec_c1_participants_bound (db : DB) (op : Op) (ops : List Op)
    (h : roomsOK db) :
    roomsOK (applyOp db op) ∧ roomsOK (applyOps emptyDB ops) :=
  ⟨roomsOK_applyOp op h, roomsOK_applyOps ops roomsOK_emptyDB⟩

/-- C1 witness: the invariant holds after a concrete create on the empty
registry and after a concrete create/join/join sequence. -/
theorem spec_c1_participants_bound_witness :
    roomsOK (applyOp emptyDB (Op.create "A" "ABCD" 0)) ∧
    roomsOK (applyOps emptyDB
      [Op.create "A" "ABCD" 0, Op.join "B" "ABCD", Op.join "C" "ABCD"]) :=
  spec_c1_participants_bound emptyDB (Op.create "A" "ABCD" 0)
    [Op.create "A" "ABCD" 0, Op.join "B" "ABCD", Op.join "C" "ABCD"]
    (by decide)

/-- C3: a join request on an unregistered (nonempty) code fails with the
acknowledgment error `Room does not exist`, changes nothing, and emits no
room-group broadcast; a join on a full room fails with `Room is full` and
changes nothing; a successful join appends the joining client's id to the end
of the room's participants, so it never changes the first entry of a
nonempty participants list. -/
theorem spec_c3_joinRoom (db : DB) (sock room : String) (r : Room)
    (hne : room ≠ "") :
    (lookupA room db.rooms = none →
      (handleJoin db sock room).2.1 = .err "Room does not exist" ∧
      (handleJoin db sock room).1 = db ∧
      ∀ e ∈ (handleJoin db sock room).2.2, isGroupBroadcast e = false) ∧
    (lookupA room db.rooms = some r → 2 ≤ r.participants.length →
      (handleJoin db sock room).2.1 = .err "Room is full" ∧
      (handleJoin db sock room).1 = db) ∧
    (lookupA room db.rooms = some r → r.participants.length < 2 →
      (handleJoin db sock room).2.1 = .ok (some room) ∧
      lookupA room (handleJoin db sock room).1.rooms =
        some { r with participants := r.participants ++ [sock] } ∧
      ∀ r' : Room, lookupA room (handleJoin db sock room).1.rooms = some r' →
        r'.participants.head? =
          (if r.participants = [] then some sock else r.participants.head?)) := by
  refine ⟨fun h => ?_, fun h hf => ?_, fun h hlt => ?_⟩
  · rw [handleJoin_notFound hne h]
    refine ⟨rfl, rfl, ?_⟩
    intro e he
    simp at he
    simp [he, isGroupBroadcast]
  · rw [handleJoin_full hne h hf]
    exact ⟨rfl, rfl⟩
  · rw [handleJoin_success hne h hlt]
    refine ⟨rfl, lookupA_setA_self _ _ _, ?_⟩
    intro r' hr'
    rw [lookupA_setA_self] at hr'
    cases hr'
    cases hp : r.participants with
    | nil => simp [hp]
    | cons a l => simp [hp]

/-- C3 witness: joining the unregistered code `"ZZZZ"` on the empty registry
fails with `Room does not exist` and no broadcast, and `"B"` joining a
one-participant room `"ABCD"` appends `"B"` after `"A"`. -/
theorem spec_c3_joinRoom_witness :
    ((handleJoin emptyDB "B" "ZZZZ").2.1 = Ack.err "Room does not exist" ∧
     (handleJoin emptyDB "B" "ZZZZ").1 = emptyDB ∧
     ∀ e ∈ (handleJoin emptyDB "B" "ZZZZ").2.2, isGroupBroadcast e = false) ∧
    lookupA "ABCD"
        (handleJoin ⟨[], [], [("ABCD", ⟨0, ["A"], "A", none⟩)], 0⟩
          "B" "ABCD").1.rooms =
      some ⟨0, ["A", "B"], "A", none⟩ := by
  constructor
  · exact (spec_c3_joinRoom emptyDB "B" "ZZZZ" ⟨0, [], "", none⟩
      (by decide)).1 (by decide)
  · exact ((spec_c3_joinRoom ⟨[], [], [("ABCD", ⟨0, ["A"], "A", none⟩)], 0⟩
      "B" "ABCD" ⟨0, ["A"], "A", none⟩ (by decide)).2.2
      (by decide) (by decide)).2.1

/-- C5: the offline messages delivered by a successful join are exactly the
room's pending queue, in append order, and the queue is empty immediately
after the join; a successful leave_message appends exactly one message at the
end of the room's queue.  Between two successful joins the queue therefore
holds exactly the messages appended since the earlier one. -/
theorem spec_c5_offline_messages (db : DB) (sock sock2 room message : String)
    (now : Nat) (r : Room) (hne : room ≠ "")
    (hl : lookupA room db.rooms = some r)
    (hnd : (keysOf db.offlineMessages).Nodup) :
    (r.participants.length < 2 →
      (handleJoin db sock room).2.1 = .ok (some room) ∧
      deliveredMsgs (handleJoin db sock room).2.2 = msgsOf db room ∧
      msgsOf (handleJoin db sock room).1 room = []) ∧
    (message ≠ "" →
      (handleLeaveMessage db sock2 room message now).2.1 = .ok none ∧
      msgsOf (handleLeaveMessage db sock2 room message now).1 room =
        msgsOf db room ++ [⟨sock2, message, now⟩]) := by
  constructor
  · intro hlt
    rw [handleJoin_success hne hl hlt]
    refine ⟨rfl, ?_, ?_⟩
    · by_cases hp : msgsOf db room = []
      · by_cases h2 : r.participants.length + 1 = 2 <;>
          simp [hp, h2, deliveredMsgs]
      · by_cases h2 : r.participants.length + 1 = 2 <;>
          simp [hp, h2, deliveredMsgs]
    · by_cases hp : (lookupA room db.offlineMessages).getD ([]) = []
      · simp [msgsOf, hp]
      · simp only [msgsOf]
        rw [if_neg hp, lookupA_eraseA_self hnd]
        rfl
  · intro hm
    have hsome : (lookupA room db.rooms).isNone = false := by
      simp [hl]
    have e : handleLeaveMessage db sock2 room message now =
        ({ db with offlineMessages :=
            (setA room (msgsOf db room ++ [⟨sock2, message, now⟩])
              db.offlineMessages) },
         .ok none,
         [.toRoomExcept room sock2 (.offlineMessage sock2 message)]) := by
      simp [handleLeaveMessage, hne, hm, hsome]
    constructor
    · rw [e]
    · rw [e]
      simp only [msgsOf]
      rw [lookupA_setA_self]
      rfl

/-- C5 witness: room `"ABCD"` has one pending message; `"B"` joining receives
exactly that message and the queue becomes empty, while leaving a message on
the same registry appends it to the queue. -/
theorem spec_c5_offline_messages_witness :
    (deliveredMsgs (handleJoin
        ⟨[], [("ABCD", [⟨"X", "hi", 1⟩])], [("ABCD", ⟨0, ["A"], "A", none⟩)], 0⟩
        "B" "ABCD").2.2 = [⟨"X", "hi", 1⟩] ∧
     msgsOf (handleJoin
        ⟨[], [("ABCD", [⟨"X", "hi", 1⟩])], [("ABCD", ⟨0, ["A"], "A", none⟩)], 0⟩
        "B" "ABCD").1 "ABCD" = []) ∧
    msgsOf (handleLeaveMessage
        ⟨[], [("ABCD", [⟨"X", "hi", 1⟩])], [("ABCD", ⟨0, ["A"], "A", none⟩)], 0⟩
        "C" "ABCD" "yo" 9).1 "ABCD" = [⟨"X", "hi", 1⟩, ⟨"C", "yo", 9⟩] := by
  have h := spec_c5_offline_messages
    ⟨[], [("ABCD", [⟨"X", "hi", 1⟩])], [("ABCD", ⟨0, ["A"], "A", none⟩)], 0⟩
    "B" "C" "ABCD" "yo" 9 ⟨0, ["A"], "A", none⟩
    (by decide) (by decide) (by decide)
  exact ⟨⟨(h.1 (by decide)).2.1, (h.1 (by decide)).2.2⟩, (h.2 (by decide)).2⟩

/-- C7: finalizing a connected room appends exactly one call record whose
`startTime` is the room's `connectedAt`, whose `endTime` is the instant
finalize runs, and whose `duration` is `(endTime - startTime) / 1000`
seconds, exactly. -/
theorem spec_c7_finalize_duration (db : DB) (room : String) (now : Nat)
    (r : Room) (ct : Nat) (hl : lookupA room db.rooms = some r)
    (hct : r.connectedAt = some ct) :
    (finalizeCallRecord db room now).callRecords =
      db.callRecords ++
        [⟨room, ct, now, ((now : ℚ) - (ct : ℚ)) / 1000, r.participants⟩] ∧
    ∀ rec : CallRecord,
      rec = ⟨room, ct, now, ((now : ℚ) - (ct : ℚ)) / 1000, r.participants⟩ →
      rec.startTime = ct ∧ rec.endTime = now ∧
      rec.duration = ((rec.endTime : ℚ) - (rec.startTime : ℚ)) / 1000 := by
  constructor
  · simp [finalizeCallRecord, hl, hct]
  · intro rec h
    subst h
    exact ⟨rfl, rfl, rfl⟩

/-- C7 witness: finalizing room `"ABCD"` connected at 2000 at instant 3500
records startTime 2000, endTime 3500 and duration (3500 - 2000)/1000. -/
theorem spec_c7_finalize_duration_witness :
    (finalizeCallRecord
        ⟨[], [], [("ABCD", ⟨0, ["A"], "A", some 2000⟩)], 0⟩
        "ABCD" 3500).callRecords =
      [⟨"ABCD", 2000, 3500, ((3500 : ℚ) - (2000 : ℚ)) / 1000, ["A"]⟩] :=
  (spec_c7_finalize_duration
    ⟨[], [], [("ABCD", ⟨0, ["A"], "A", some 2000⟩)], 0⟩
    "ABCD" 3500 ⟨0, ["A"], "A", some 2000⟩ 2000
    (by decide) (by decide)).1

/-- C6 counterexample: in the lifetime of the single room `"ABCD"` (still
registered at the end), `peer_joined` is emitted twice: once when `"B"`
joins `"A"`, and again when `"C"` joins after `"B"` left. -/
theorem spec_c6_peer_joined_cex :
    ((runOps emptyDB [Op.create "A" "ABCD" 0, Op.join "B" "ABCD",
        Op.leave "B" "ABCD" 2, Op.join "C" "ABCD"]).2.filter
      isPeerJoined).length = 2 ∧
    (lookupA "ABCD" (runOps emptyDB [Op.create "A" "ABCD" 0,
        Op.join "B" "ABCD", Op.leave "B" "ABCD" 2,
        Op.join "C" "ABCD"]).1.rooms).isSome = true := by
  decide

theorem cleanupStep_snd (sock : String) (now : Nat) (db : DB)
    (room : String) :
    (cleanupStep sock now db room).2 = [] ∨
    (cleanupStep sock now db room).2 = [.toRoom room .leaveEv] := by
  unfold cleanupStep
  split
  · exact Or.inl rfl
  · split
    · dsimp only
      split
      · exact Or.inr rfl
      · exact Or.inr rfl
    · exact Or.inl rfl

theorem filter_isPeerJoined_cleanupList (sock : String) (now : Nat)
    (ks : List String) (db : DB) :
    (cleanupList sock now db ks).2.filter isPeerJoined = [] := by
  induction ks generalizing db with
  | nil => rfl
  | cons room rest ih =>
      show ((cleanupStep sock now db room).2 ++
        (cleanupList sock now (cleanupStep sock now db room).1 rest).2).filter
          isPeerJoined = []
      rw [List.filter_append, ih]
      rcases cleanupStep_snd sock now db room with h | h <;>
        simp [h, isPeerJoined]

/-- C6 amended: a join emits the `peer_joined` notification exactly when the
room had exactly 1 participant before (the 1 to 2 transition), and then
exactly one such notification, addressed only to `participants[0]`; joins in
any other room state, and every non-join operation, emit none.  The
notification is not once-per-room-lifetime: it fires at every 1 to 2
transition (see the counterexample). -/
theorem spec_c6_peer_joined_amended (db : DB) (sock room : String) (r : Room)
    (op : Op) (hne : room ≠ "") :
    (lookupA room db.rooms = some r → r.participants.length = 1 →
      (handleJoin db sock room).2.2.filter isPeerJoined =
        [.toClient (r.participants.headD "") .peerJoined]) ∧
    (lookupA room db.rooms = some r → r.participants.length ≠ 1 →
      (handleJoin db sock room).2.2.filter isPeerJoined = []) ∧
    (lookupA room db.rooms = none →
      (handleJoin db sock room).2.2.filter isPeerJoined = []) ∧
    (op.isJoin = false → (emitsOf db op).filter isPeerJoined = []) := by
  refine ⟨fun h h1 => ?_, fun h h1 => ?_, fun h => ?_, fun h => ?_⟩
  · rw [handleJoin_success hne h (by omega)]
    by_cases hp : msgsOf db room = [] <;>
      simp [hp, h1, isPeerJoined, List.filter_append]
  · by_cases hf : 2 ≤ r.participants.length
    · rw [handleJoin_full hne h hf]
      simp [isPeerJoined]
    · rw [handleJoin_success hne h (not_le.mp hf)]
      have h2 : ¬ r.participants.length + 1 = 2 := by omega
      by_cases hp : msgsOf db room = [] <;>
        simp [hp, h2, isPeerJoined, List.filter_append]
  · rw [handleJoin_notFound hne h]
    simp [isPeerJoined]
  · cases op with
    | create sock2 room2 now2 =>
        show ((handleCreate db sock2 room2 now2).2.2).filter isPeerJoined = []
        unfold handleCreate
        split
        · rfl
        · split <;> rfl
    | join sock2 room2 => simp [Op.isJoin] at h
    | relay sock2 kind2 data2 =>
        show ((handleRelay db sock2 kind2 data2).2.2).filter isPeerJoined = []
        unfold handleRelay
        split
        · rfl
        · split
          · rfl
          · split <;> simp [isPeerJoined]
    | leaveMessage sock2 room2 message2 now2 =>
        show ((handleLeaveMessage db sock2 room2 message2 now2).2.2).filter
          isPeerJoined = []
        unfold handleLeaveMessage
        split
        · rfl
        · split
          · rfl
          · simp [isPeerJoined]
    | callConnected room2 now2 =>
        show ((handleCallConnected db room2 now2).2.2).filter isPeerJoined = []
        unfold handleCallConnected
        split <;> rfl
    | leave sock2 room2 now2 =>
        show ((handleLeave db sock2 room2 now2).2.2).filter isPeerJoined = []
        simp [handleLeave, isPeerJoined]
    | disconnect sock2 now2 =>
        exact filter_isPeerJoined_cleanupList sock2 now2 _ db

/-- C6 amended witness: `"B"` joining the one-participant room `"ABCD"`
yields exactly one `peer_joined`, addressed to `"A"`, and a create emits
none. -/
theorem spec_c6_peer_joined_amended_witness :
    (handleJoin ⟨[], [], [("ABCD", ⟨0, ["A"], "A", none⟩)], 0⟩
        "B" "ABCD").2.2.filter isPeerJoined =
      [.toClient "A" .peerJoined] ∧
    (emitsOf emptyDB (Op.create "A" "ABCD" 0)).filter isPeerJoined = [] := by
  have h := spec_c6_peer_joined_amended
    ⟨[], [], [("ABCD", ⟨0, ["A"], "A", none⟩)], 0⟩ "B" "ABCD"
    ⟨0, ["A"], "A", none⟩ (Op.create "A" "ABCD" 0) (by decide)
  exact ⟨h.1 (by decide) (by decide), h.2.2.2 (by decide)⟩

/-- C8 counterexample: in the documented scenario (A creates `"ABCD"`, B
joins, call_connected, B disconnects, then A disconnects), the appended call
record's participants snapshot is `[]`, not `[A]`: the splice removes A
before `finalizeCallRecord` snapshots the list.  The room is removed. -/
theorem spec_c8_snapshot_cex :
    (applyOps emptyDB [Op.create "A" "ABCD" 0, Op.join "B" "ABCD",
        Op.callConnected "ABCD" 2, Op.disconnect "B" 3,
        Op.disconnect "A" 4]).callRecords.map CallRecord.participants =
      [[]] ∧
    (applyOps emptyDB [Op.create "A" "ABCD" 0, Op.join "B" "ABCD",
        Op.callConnected "ABCD" 2, Op.disconnect "B" 3,
        Op.disconnect "A" 4]).callRecords.map CallRecord.participants ≠
      [["A"]] ∧
    lookupA "ABCD" (applyOps emptyDB [Op.create "A" "ABCD" 0,
        Op.join "B" "ABCD", Op.callConnected "ABCD" 2, Op.disconnect "B" 3,
        Op.disconnect "A" 4]).rooms = none := by
  refine ⟨by decide, by decide, by decide⟩

theorem mem_keysOf_of_lookupA {m : List (String × α)} {k : String} {v : α}
    (h : lookupA k m = some v) : k ∈ keysOf m :=
  List.mem_map_of_mem Prod.fst (lookupA_mem h)

theorem keysOf_setA_of_mem {m : List (String × α)} {k : String} (v : α)
    (h : k ∈ keysOf m) : keysOf (setA k v m) = keysOf m := by
  induction m with
  | nil => cases h
  | cons q rest ih =>
      obtain ⟨k1, v1⟩ := q
      by_cases hk : k1 = k
      · subst hk
        simp [setA, keysOf_cons]
      · rw [keysOf_cons, List.mem_cons] at h
        rcases h with h | h
        · exact absurd h.symm hk
        · simp [setA, hk, keysOf_cons, ih h]

theorem cleanupStep_skip {db : DB} {a k : String} {now : Nat}
    (h : ∀ rk, lookupA k db.rooms = some rk → a ∉ rk.participants) :
    cleanupStep a now db k = (db, []) := by
  unfold cleanupStep
  cases hl : lookupA k db.rooms with
  | none => rfl
  | some rk => simp [h rk hl]

theorem cleanupList_skip {db : DB} {a : String} {now : Nat} {ks : List String}
    (h : ∀ k ∈ ks, ∀ rk, lookupA k db.rooms = some rk →
      a ∉ rk.participants) :
    cleanupList a now db ks = (db, []) := by
  induction ks with
  | nil => rfl
  | cons k rest ih =>
      show (let p := cleanupStep a now db k
        let q := cleanupList a now p.1 rest
        ((q.1, p.2 ++ q.2) : DB × List Emit)) = (db, [])
      rw [cleanupStep_skip (h k (List.mem_cons_self k rest))]
      dsimp only
      rw [ih (fun k2 hk2 => h k2 (List.mem_cons_of_mem k hk2))]
      rfl

theorem cleanupList_append_fst (a : String) (now : Nat) (db : DB)
    (l1 l2 : List String) :
    (cleanupList a now db (l1 ++ l2)).1 =
      (cleanupList a now (cleanupList a now db l1).1 l2).1 := by
  induction l1 generalizing db with
  | nil => rfl
  | cons k rest ih => exact ih (cleanupStep a now db k).1

theorem cleanupStep_last {db : DB} {a room : String} {now : Nat} {r : Room}
    {ct : Nat} (hl : lookupA room db.rooms = some r)
    (hp : r.participants = [a]) (hct : r.connectedAt = some ct) :
    cleanupStep a now db room =
      ({ db with
          callRecords :=
            (db.callRecords ++
              [⟨room, ct, now, ((now : ℚ) - (ct : ℚ)) / 1000, []⟩]),
          rooms :=
            (eraseA room
              (setA room { r with participants := [] } db.rooms)) },
       [.toRoom room .leaveEv]) := by
  simp [cleanupStep, finalizeCallRecord, hl, hp, hct, lookupA_setA_self]

/-- C8 amended: when the last remaining participant `a` of a room with
`connectedAt` set disconnects (and `a` is in no other registered room, the
registry's keys being duplicate-free), Call Accounting appends a call record
whose participants snapshot is `[]` — not `[a]`: the splice removes `a`
before `finalizeCallRecord` snapshots the list — and removes the room from
the registry. -/
theorem spec_c8_snapshot_amended (db : DB) (a room : String) (now : Nat)
    (r : Room) (ct : Nat)
    (hl : lookupA room db.rooms = some r)
    (hp : r.participants = [a])
    (hct : r.connectedAt = some ct)
    (hnd : (keysOf db.rooms).Nodup)
    (honly : ∀ p ∈ db.rooms, p.1 ≠ room → a ∉ (Prod.snd p).participants) :
    (cleanupSocketRooms db a now).1.callRecords =
      db.callRecords ++
        [⟨room, ct, now, ((now : ℚ) - (ct : ℚ)) / 1000, []⟩] ∧
    lookupA room (cleanupSocketRooms db a now).1.rooms = none := by
  have hroomk : room ∈ keysOf db.rooms := mem_keysOf_of_lookupA hl
  obtain ⟨ks1, ks2, hks⟩ := List.append_of_mem hroomk
  have hnd' := hnd
  rw [hks, List.nodup_append] at hnd'
  obtain ⟨hnd1, hnd2, hdisj⟩ := hnd'
  have hr1 : room ∉ ks1 := fun hr =>
    hdisj hr (List.mem_cons_self room ks2)
  have hr2 : room ∉ ks2 := (List.nodup_cons.mp hnd2).1
  -- the swept key list, split at the target room
  have hsweep : cleanupSocketRooms db a now =
      cleanupList a now db (ks1 ++ room :: ks2) := by
    unfold cleanupSocketRooms
    rw [show db.rooms.map Prod.fst = keysOf db.rooms from rfl, hks]
  -- phase 1: keys before the target room leave the database unchanged
  have hphase1 : cleanupList a now db ks1 = (db, []) := by
    refine cleanupList_skip (fun k hk rk hlk ha => ?_)
    have hkne : k ≠ room := fun he => hr1 (he ▸ hk)
    exact honly (k, rk) (lookupA_mem hlk) hkne ha
  -- phase 2: the target room finalizes and is erased
  set db' : DB :=
    { db with
      callRecords :=
        (db.callRecords ++
          [⟨room, ct, now, ((now : ℚ) - (ct : ℚ)) / 1000, []⟩]),
      rooms :=
        (eraseA room
          (setA room { r with participants := [] } db.rooms)) } with hdb'
  have hstep : cleanupStep a now db room = (db', [.toRoom room .leaveEv]) :=
    cleanupStep_last hl hp hct
  -- after the erase, every other key resolves as before
  have hlook' : ∀ k, k ≠ room → lookupA k db'.rooms = lookupA k db.rooms := by
    intro k hkne
    rw [hdb']
    show lookupA k (eraseA room (setA room
      { r with participants := [] } db.rooms)) = lookupA k db.rooms
    rw [lookupA_eraseA_ne _ hkne, lookupA_setA_ne _ _ hkne]
  -- phase 3: keys after the target room leave the database unchanged
  have hphase3 : cleanupList a now db' ks2 = (db', []) := by
    refine cleanupList_skip (fun k hk rk hlk ha => ?_)
    have hkne : k ≠ room := fun he => hr2 (he ▸ hk)
    rw [hlook' k hkne] at hlk
    exact honly (k, rk) (lookupA_mem hlk) hkne ha
  have hrun : (cleanupSocketRooms db a now).1 = db' := by
    have h0 : (cleanupSocketRooms db a now).1 =
        (cleanupList a now db (ks1 ++ room :: ks2)).1 := by rw [hsweep]
    rw [h0, cleanupList_append_fst, hphase1]
    show (cleanupList a now (cleanupStep a now db room).1 ks2).1 = db'
    rw [hstep]
    show (cleanupList a now db' ks2).1 = db'
    rw [hphase3]
  refine ⟨by rw [hrun], ?_⟩
  rw [hrun, hdb']
  show lookupA room (eraseA room (setA room
    { r with participants := [] } db.rooms)) = none
  refine lookupA_eraseA_self ?_
  rw [keysOf_setA_of_mem _ hroomk]
  exact hnd

/-- C8 amended witness: the documented scenario run through the general
lemma: after A, the last participant of connected room `"ABCD"`, disconnects,
the record's snapshot is `[]` and the room is gone. -/
theorem spec_c8_snapshot_amended_witness :
    (cleanupSocketRooms
        ⟨[], [], [("ABCD", ⟨0, ["A"], "A", some 2⟩)], 1⟩ "A" 4).1.callRecords =
      [⟨"ABCD", 2, 4, ((4 : ℚ) - (2 : ℚ)) / 1000, []⟩] ∧
    lookupA "ABCD" (cleanupSocketRooms
        ⟨[], [], [("ABCD", ⟨0, ["A"], "A", some 2⟩)], 1⟩ "A" 4).1.rooms =
      none := by
  have h := spec_c8_snapshot_amended
    ⟨[], [], [("ABCD", ⟨0, ["A"], "A", some 2⟩)], 1⟩ "A" "ABCD" 4
    ⟨0, ["A"], "A", some 2⟩ 2 (by decide) (by decide) (by decide)
    (by decide) (by decide)
  exact h

end CallPro
